import Mathlib

set_option maxHeartbeats 1600000
set_option maxRecDepth 8192

/-!
Verification of tcreader (src/libs/tcreader.cpp), a terminal comic reader.
Each section embeds one component of the C++ source as executable Lean
definitions and proves the corresponding specification claims about it.
-/

namespace TCReader

/-!
## Base64 encoder (tcreader.cpp lines 81-110)

`base64_encode` consumes the input byte stream three bytes at a time
(the C++ loop buffers bytes in `arr3` and flushes four output characters
whenever the buffer fills); the two tail cases mirror the `if (i)` block,
which zero-pads the missing bytes, emits `i + 1` characters and fills the
rest with `'='`.  Bytes are modelled as `Nat` (values below 256).
-/

def base64_chars : List Char :=
  "ABCDEFGHIJKLMNOPQRSTUVWXYZabcdefghijklmnopqrstuvwxyz0123456789+/".data

/-- Table lookup `base64_chars[v]` for a six-bit value `v`. -/
def encByte (n : Nat) : Char := base64_chars.getD n 'A'

/-- Shallow embedding of `base64_encode` (lines 84-110).  The masks and
shifts are exactly those of the source; `0` stands for the zero padding
written into `arr3` by the tail block. -/
def base64_encode : List Nat → List Char
  | b0 :: b1 :: b2 :: rest =>
      encByte ((b0 &&& 0xfc) >>> 2) ::
      encByte (((b0 &&& 0x03) <<< 4) + ((b1 &&& 0xf0) >>> 4)) ::
      encByte (((b1 &&& 0x0f) <<< 2) + ((b2 &&& 0xc0) >>> 6)) ::
      encByte (b2 &&& 0x3f) ::
      base64_encode rest
  | [b0, b1] =>
      [encByte ((b0 &&& 0xfc) >>> 2),
       encByte (((b0 &&& 0x03) <<< 4) + ((b1 &&& 0xf0) >>> 4)),
       encByte (((b1 &&& 0x0f) <<< 2) + ((0 &&& 0xc0) >>> 6)),
       '=']
  | [b0] =>
      [encByte ((b0 &&& 0xfc) >>> 2),
       encByte (((b0 &&& 0x03) <<< 4) + ((0 &&& 0xf0) >>> 4)),
       '=', '=']
  | [] => []

/-- Specification-side definition (RFC 4648 section 4): the four six-bit
groups of the 24-bit big-endian concatenation of a three-byte chunk. -/
def sextets (n : Nat) : List Nat :=
  [n / 262144 % 64, n / 4096 % 64, n / 64 % 64, n % 64]

/-- Specification-side definition: standard RFC 4648 base64 encoding,
three input bytes per four output characters, `'='`-padded. -/
def rfc4648_encode : List Nat → List Char
  | b0 :: b1 :: b2 :: rest =>
      (sextets (b0 * 65536 + b1 * 256 + b2)).map encByte ++ rfc4648_encode rest
  | [b0, b1] => ((sextets (b0 * 65536 + b1 * 256)).take 3).map encByte ++ ['=']
  | [b0] => ((sextets (b0 * 65536)).take 2).map encByte ++ ['=', '=']
  | [] => []

/-- Index of a character in the base64 alphabet. -/
def b64val (c : Char) : Nat := base64_chars.indexOf c

/-- Specification-side definition: standard RFC 4648 base64 decoding. -/
def rfc4648_decode : List Char → List Nat
  | c0 :: c1 :: c2 :: c3 :: rest =>
      if c2 = '=' then [b64val c0 * 4 + b64val c1 / 16]
      else if c3 = '=' then
        [b64val c0 * 4 + b64val c1 / 16,
         b64val c1 % 16 * 16 + b64val c2 / 4]
      else
        (b64val c0 * 4 + b64val c1 / 16) ::
        (b64val c1 % 16 * 16 + b64val c2 / 4) ::
        (b64val c2 % 4 * 64 + b64val c3) ::
        rfc4648_decode rest
  | _ => []

theorem mask_fc : ∀ b < 256, (b &&& 0xfc) >>> 2 = b / 4 := by decide

theorem mask_03 : ∀ b < 256, (b &&& 0x03) <<< 4 = b % 4 * 16 := by decide

theorem mask_f0 : ∀ b < 256, (b &&& 0xf0) >>> 4 = b / 16 := by decide

theorem mask_0f : ∀ b < 256, (b &&& 0x0f) <<< 2 = b % 16 * 4 := by decide

theorem mask_c0 : ∀ b < 256, (b &&& 0xc0) >>> 6 = b / 64 := by decide

theorem mask_3f : ∀ b < 256, b &&& 0x3f = b % 64 := by decide

theorem encByte_mem : ∀ n < 64, encByte n ∈ base64_chars := by decide

theorem encByte_ne_pad : ∀ n < 64, encByte n ≠ '=' := by decide

theorem b64val_encByte : ∀ n < 64, b64val (encByte n) = n := by decide

theorem base64_encode_length (data : List Nat) :
    (base64_encode data).length = 4 * ((data.length + 2) / 3) := by
  induction data using base64_encode.induct with
  | case1 b0 b1 b2 rest ih => simp [base64_encode, ih]; omega
  | case2 b0 b1 => simp [base64_encode]
  | case3 b0 => simp [base64_encode]
  | case4 => simp [base64_encode]

theorem base64_encode_alphabet (data : List Nat) (h : ∀ b ∈ data, b < 256) :
    ∀ c ∈ base64_encode data, c ∈ base64_chars ∨ c = '=' := by
  induction data using base64_encode.induct with
  | case1 b0 b1 b2 rest ih =>
      have h0 := h b0 (by simp)
      have h1 := h b1 (by simp)
      have h2 := h b2 (by simp)
      intro c hc
      simp only [base64_encode, List.mem_cons] at hc
      rcases hc with rfl | rfl | rfl | rfl | hc
      · exact Or.inl (encByte_mem _ (by rw [mask_fc b0 h0]; omega))
      · exact Or.inl (encByte_mem _ (by rw [mask_03 b0 h0, mask_f0 b1 h1]; omega))
      · exact Or.inl (encByte_mem _ (by rw [mask_0f b1 h1, mask_c0 b2 h2]; omega))
      · exact Or.inl (encByte_mem _ (by rw [mask_3f b2 h2]; omega))
      · exact ih (fun b hb => h b (by simp [hb])) c hc
  | case2 b0 b1 =>
      have h0 := h b0 (by simp)
      have h1 := h b1 (by simp)
      intro c hc
      simp only [base64_encode, List.mem_cons] at hc
      rcases hc with rfl | rfl | rfl | rfl | hc
      · exact Or.inl (encByte_mem _ (by rw [mask_fc b0 h0]; omega))
      · exact Or.inl (encByte_mem _ (by rw [mask_03 b0 h0, mask_f0 b1 h1]; omega))
      · exact Or.inl (encByte_mem _ (by rw [mask_0f b1 h1]; norm_num; omega))
      · exact Or.inr rfl
      · simp at hc
  | case3 b0 =>
      have h0 := h b0 (by simp)
      intro c hc
      simp only [base64_encode, List.mem_cons] at hc
      rcases hc with rfl | rfl | rfl | rfl | hc
      · exact Or.inl (encByte_mem _ (by rw [mask_fc b0 h0]; omega))
      · exact Or.inl (encByte_mem _ (by rw [mask_03 b0 h0]; norm_num; omega))
      · exact Or.inr rfl
      · exact Or.inr rfl
      · simp at hc
  | case4 => intro c hc; simp [base64_encode] at hc

theorem base64_encode_eq_rfc (data : List Nat) (h : ∀ b ∈ data, b < 256) :
    base64_encode data = rfc4648_encode data := by
  induction data using base64_encode.induct with
  | case1 b0 b1 b2 rest ih =>
      have h0 := h b0 (by simp)
      have h1 := h b1 (by simp)
      have h2 := h b2 (by simp)
      have e0 : (b0 &&& 0xfc) >>> 2 = (b0 * 65536 + b1 * 256 + b2) / 262144 % 64 := by
        rw [mask_fc b0 h0]; omega
      have e1 : (b0 &&& 0x03) <<< 4 + (b1 &&& 0xf0) >>> 4
          = (b0 * 65536 + b1 * 256 + b2) / 4096 % 64 := by
        rw [mask_03 b0 h0, mask_f0 b1 h1]; omega
      have e2 : (b1 &&& 0x0f) <<< 2 + (b2 &&& 0xc0) >>> 6
          = (b0 * 65536 + b1 * 256 + b2) / 64 % 64 := by
        rw [mask_0f b1 h1, mask_c0 b2 h2]; omega
      have e3 : b2 &&& 0x3f = (b0 * 65536 + b1 * 256 + b2) % 64 := by
        rw [mask_3f b2 h2]; omega
      simp only [base64_encode, rfc4648_encode, sextets, List.map_cons, List.map_nil,
        List.cons_append, List.nil_append]
      rw [e0, e1, e2, e3, ih (fun b hb => h b (by simp [hb]))]
  | case2 b0 b1 =>
      have h0 := h b0 (by simp)
      have h1 := h b1 (by simp)
      have e0 : (b0 &&& 0xfc) >>> 2 = (b0 * 65536 + b1 * 256) / 262144 % 64 := by
        rw [mask_fc b0 h0]; omega
      have e1 : (b0 &&& 0x03) <<< 4 + (b1 &&& 0xf0) >>> 4
          = (b0 * 65536 + b1 * 256) / 4096 % 64 := by
        rw [mask_03 b0 h0, mask_f0 b1 h1]; omega
      have e2 : (b1 &&& 0x0f) <<< 2 + (0 &&& 0xc0) >>> 6
          = (b0 * 65536 + b1 * 256) / 64 % 64 := by
        rw [mask_0f b1 h1]; norm_num; omega
      simp only [base64_encode, rfc4648_encode, sextets, List.take, List.map_cons,
        List.map_nil, List.cons_append, List.nil_append]
      rw [e0, e1, e2]
  | case3 b0 =>
      have h0 := h b0 (by simp)
      have e0 : (b0 &&& 0xfc) >>> 2 = b0 * 65536 / 262144 % 64 := by
        rw [mask_fc b0 h0]; omega
      have e1 : (b0 &&& 0x03) <<< 4 + (0 &&& 0xf0) >>> 4 = b0 * 65536 / 4096 % 64 := by
        rw [mask_03 b0 h0]; norm_num; omega
      simp only [base64_encode, rfc4648_encode, sextets, List.take, List.map_cons,
        List.map_nil, List.cons_append, List.nil_append]
      rw [e0, e1]
  | case4 => rfl

theorem rfc4648_decode_encode (data : List Nat) (h : ∀ b ∈ data, b < 256) :
    rfc4648_decode (base64_encode data) = data := by
  induction data using base64_encode.induct with
  | case1 b0 b1 b2 rest ih =>
      have h0 := h b0 (by simp)
      have h1 := h b1 (by simp)
      have h2 := h b2 (by simp)
      have v0 : (b0 &&& 0xfc) >>> 2 = b0 / 4 := mask_fc b0 h0
      have v1 : (b0 &&& 0x03) <<< 4 + (b1 &&& 0xf0) >>> 4 = b0 % 4 * 16 + b1 / 16 := by
        rw [mask_03 b0 h0, mask_f0 b1 h1]
      have v2 : (b1 &&& 0x0f) <<< 2 + (b2 &&& 0xc0) >>> 6 = b1 % 16 * 4 + b2 / 64 := by
        rw [mask_0f b1 h1, mask_c0 b2 h2]
      have v3 : b2 &&& 0x3f = b2 % 64 := mask_3f b2 h2
      simp only [base64_encode, rfc4648_decode, v0, v1, v2, v3]
      rw [if_neg (encByte_ne_pad _ (by omega)), if_neg (encByte_ne_pad _ (by omega))]
      rw [b64val_encByte _ (by omega), b64val_encByte _ (by omega),
        b64val_encByte _ (by omega), b64val_encByte _ (by omega)]
      rw [ih (fun b hb => h b (by simp [hb]))]
      simp only [List.cons.injEq]
      refine ⟨by omega, by omega, by omega, trivial⟩
  | case2 b0 b1 =>
      have h0 := h b0 (by simp)
      have h1 := h b1 (by simp)
      have v0 : (b0 &&& 0xfc) >>> 2 = b0 / 4 := mask_fc b0 h0
      have v1 : (b0 &&& 0x03) <<< 4 + (b1 &&& 0xf0) >>> 4 = b0 % 4 * 16 + b1 / 16 := by
        rw [mask_03 b0 h0, mask_f0 b1 h1]
      have v2 : (b1 &&& 0x0f) <<< 2 + (0 &&& 0xc0) >>> 6 = b1 % 16 * 4 := by
        rw [mask_0f b1 h1]; norm_num
      simp only [base64_encode, rfc4648_decode, v0, v1, v2]
      rw [if_neg (encByte_ne_pad _ (by omega))]
      simp only [if_true]
      rw [b64val_encByte _ (by omega), b64val_encByte _ (by omega),
        b64val_encByte _ (by omega)]
      simp only [List.cons.injEq]
      refine ⟨by omega, by omega, trivial⟩
  | case3 b0 =>
      have h0 := h b0 (by simp)
      have v0 : (b0 &&& 0xfc) >>> 2 = b0 / 4 := mask_fc b0 h0
      have v1 : (b0 &&& 0x03) <<< 4 + (0 &&& 0xf0) >>> 4 = b0 % 4 * 16 := by
        rw [mask_03 b0 h0]; norm_num
      simp only [base64_encode, rfc4648_decode, v0, v1]
      simp only [if_true]
      rw [b64val_encByte _ (by omega), b64val_encByte _ (by omega)]
      simp only [List.cons.injEq]
      refine ⟨by omega, trivial⟩
  | case4 => rfl

/-- C10: for every byte sequence of length n, `base64_encode` returns a
string of length exactly `4 * ceil(n / 3)` consisting only of characters
from the standard base64 alphabet plus `'='` padding, its output equals
the RFC 4648 standard base64 encoding of the input, and decoding it
recovers the original bytes. -/
theorem c10_base64_correct (data : List Nat) (h : ∀ b ∈ data, b < 256) :
    (base64_encode data).length = 4 * ((data.length + 2) / 3) ∧
    (∀ c ∈ base64_encode data, c ∈ base64_chars ∨ c = '=') ∧
    base64_encode data = rfc4648_encode data ∧
    rfc4648_decode (base64_encode data) = data :=
  ⟨base64_encode_length data, base64_encode_alphabet data h,
   base64_encode_eq_rfc data h, rfc4648_decode_encode data h⟩

/-- Witness for C10 at the concrete byte sequence `[77, 97, 110]` ("Man"). -/
theorem c10_base64_correct_witness :
    (∀ b ∈ [77, 97, 110], b < 256) ∧
    ((base64_encode [77, 97, 110]).length = 4 * (([77, 97, 110].length + 2) / 3) ∧
     (∀ c ∈ base64_encode [77, 97, 110], c ∈ base64_chars ∨ c = '=') ∧
     base64_encode [77, 97, 110] = rfc4648_encode [77, 97, 110] ∧
     rfc4648_decode (base64_encode [77, 97, 110]) = [77, 97, 110]) :=
  ⟨by decide, c10_base64_correct [77, 97, 110] (by decide)⟩

/-!
## Natural sort comparator (tcreader.cpp lines 115-133)

The C++ loop walks both strings with cursors `i`, `j`; when both cursors
sit on digits it consumes the maximal digit runs from both strings and
compares them as integer values, otherwise it compares single characters;
when either string is exhausted it falls back to comparing the FULL sizes
of the two strings (`a.size() < b.size()`), which we therefore carry along
as `la`, `lb`.  The recursion consumes at least one character of each
string per step, so fuel `a.length + b.length` always suffices
(`natCmpF_fuel_succ` below makes the fuel irrelevance precise).
-/

/-- Integer value of the maximal digit run at the head of `s`
(`std::stoll(a.substr(num_start, len))` in the source). -/
def digitRunVal (s : List Char) : Nat :=
  (s.takeWhile Char.isDigit).foldl (fun acc c => acc * 10 + (c.toNat - 48)) 0

def natCmpF : Nat → List Char → List Char → Nat → Nat → Bool
  | _, [], _, la, lb => decide (la < lb)
  | _, _, [], la, lb => decide (la < lb)
  | 0, _, _, la, lb => decide (la < lb)
  | fuel + 1, x :: xs, y :: ys, la, lb =>
      if x.isDigit && y.isDigit then
        let na := digitRunVal (x :: xs)
        let nb := digitRunVal (y :: ys)
        if na ≠ nb then decide (na < nb)
        else natCmpF fuel ((x :: xs).dropWhile Char.isDigit)
               ((y :: ys).dropWhile Char.isDigit) la lb
      else if x ≠ y then decide (x < y)
      else natCmpF fuel xs ys la lb

/-- Shallow embedding of `natural_sort_compare` (lines 115-133). -/
def natural_sort_compare (a b : List Char) : Bool :=
  natCmpF (a.length + b.length) a b a.length b.length

/-- One unit of extra fuel never changes the result once the fuel covers
the total length of both strings: the fuelled recursion computes the total
C++ loop. -/
theorem natCmpF_fuel_succ :
    ∀ (f : Nat) (a b : List Char) (la lb : Nat), a.length + b.length ≤ f →
      natCmpF (f + 1) a b la lb = natCmpF f a b la lb := by
  intro f
  induction f with
  | zero =>
      intro a b la lb hab
      match a, b with
      | [], _ => simp [natCmpF]
      | x :: xs, [] => simp [natCmpF]
      | x :: xs, y :: ys => simp at hab
  | succ f ih =>
      intro a b la lb hab
      match a, b with
      | [], _ => simp [natCmpF]
      | x :: xs, [] => simp [natCmpF]
      | x :: xs, y :: ys =>
          simp only [natCmpF]
          by_cases hd : x.isDigit && y.isDigit
          · simp only [hd, if_true]
            by_cases hne : digitRunVal (x :: xs) ≠ digitRunVal (y :: ys)
            · simp [hne]
            · simp only [hne, if_neg, ite_false]
              simp only [Bool.and_eq_true] at hd
              have hx := List.dropWhile_cons_of_pos (p := Char.isDigit) (l := xs) hd.1
              have hy := List.dropWhile_cons_of_pos (p := Char.isDigit) (l := ys) hd.2
              apply ih
              rw [hx, hy]
              have h1 : (xs.dropWhile Char.isDigit).length ≤ xs.length :=
                (List.dropWhile_suffix _).sublist.length_le
              have h2 : (ys.dropWhile Char.isDigit).length ≤ ys.length :=
                (List.dropWhile_suffix _).sublist.length_le
              simp at hab
              omega
          · simp only [hd, if_false]
            by_cases hxy : x ≠ y
            · simp [hxy]
            · simp only [hxy, ite_false]
              apply ih
              simp at hab
              omega

/-!
## Archive reader (tcreader.cpp lines 247-352)

`ArchiveReader::open` walks the archive stream once, keeping every entry
whose lower-cased extension is one of six image extensions together with
its physical position `idx` in the stream, then sorts the kept entries
with `natural_sort_compare` on the entry name.  `std::sort` with a strict
total order produces the unique sorted permutation, which we model with
insertion sort.  `ArchiveReader::read_page` resolves an ordinal to its
stream position and emulates random access over the forward-only stream:
it reopens the stream from the beginning when
`current_entry > target || current_entry == -1` and then walks headers
forward until the target position, returning that entry's payload.
-/

structure PageEntry where
  name : String
  index_in_archive : Nat
deriving DecidableEq, Repr

/-- `::tolower` in the C locale: 'A'-'Z' map to 'a'-'z'. -/
def asciiLower (c : Char) : Char :=
  if 'A' ≤ c ∧ c ≤ 'Z' then Char.ofNat (c.toNat + 32) else c

/-- Filename component of a path (`fs::path(name).filename()`). -/
def filename_of (p : List Char) : List Char :=
  (p.reverse.takeWhile (fun c => c ≠ '/')).reverse

/-- `fs::path(name).extension().string()`: the suffix of the filename
starting at its last dot, except that `"."`, `".."` and filenames whose
last dot is the leading character have no extension. -/
def extension_of (p : List Char) : List Char :=
  let fn := filename_of p
  if fn = ['.'] ∨ fn = ['.', '.'] then []
  else
    let after := (fn.reverse.takeWhile (fun c => c ≠ '.')).reverse
    if after.length = fn.length then []
    else if after.length + 1 = fn.length then []
    else '.' :: after

/-- Extension filter of `ArchiveReader::open` (lines 283-286). -/
def is_image_name (name : String) : Bool :=
  let ext := (extension_of name.data).map asciiLower
  [".jpg".data, ".jpeg".data, ".png".data, ".gif".data,
   ".webp".data, ".bmp".data].contains ext

/-- Indexing pass of `ArchiveReader::open` (lines 276-298): enumerate all
entries with their stream positions, keep the image-bearing ones, sort by
natural order of the name. -/
def index_archive (names : List String) : List PageEntry :=
  List.insertionSort
    (fun a b => natural_sort_compare a.name.data b.name.data = true)
    ((names.enum.filter (fun p => is_image_name p.2)).map
      (fun p => { name := p.2, index_in_archive := p.1 }))

/-- Rewind condition of `ArchiveReader::read_page` (line 325):
`current_entry > static_cast<int>(target_idx) || current_entry == -1`. -/
def needs_rewind (cursor : Int) (target : Nat) : Bool :=
  decide (cursor > (target : Int)) || decide (cursor = -1)

/-- The forward walk of `read_page` (lines 335-347): while another header
can be read, advance the cursor; at the target position return that
entry's payload, otherwise skip the payload and continue.  `payloads`
lists every archive entry's payload in stream order; reading one more
header succeeds exactly while `cursor + 1 < payloads.length`.  The fuel
is always instantiated with `payloads.length`, which bounds the number of
remaining headers. -/
def streamWalk (payloads : List (List Nat)) (target : Nat) :
    Int → Nat → List Nat × Int
  | cursor, 0 => ([], cursor)
  | cursor, fuel + 1 =>
      if cursor + 1 < (payloads.length : Int) then
        if cursor + 1 = (target : Int) then (payloads.getD target [], cursor + 1)
        else streamWalk payloads target (cursor + 1) fuel
      else ([], cursor)

/-- Shallow embedding of `ArchiveReader::read_page` (lines 320-348) for an
archive whose payload reads succeed (well-formed payloads): given the
session cursor, return the bytes and the new cursor.  `entries` is the
`index_in_archive` sequence of the sorted index. -/
def read_page (payloads : List (List Nat)) (entries : List Nat)
    (cursor : Int) (page_idx : Nat) : List Nat × Int :=
  match entries.get? page_idx with
  | none => ([], cursor)
  | some target =>
      let c := if needs_rewind cursor target then -1 else cursor
      streamWalk payloads target c payloads.length

theorem streamWalk_hit (payloads : List (List Nat)) (target : Nat) :
    ∀ (fuel : Nat) (cursor : Int), cursor < (target : Int) →
      (target : Int) < payloads.length → (target : Int) - cursor ≤ fuel →
      streamWalk payloads target cursor fuel
        = (payloads.getD target [], (target : Int)) := by
  intro fuel
  induction fuel with
  | zero => intro cursor h1 h2 h3; omega
  | succ fuel ih =>
      intro cursor h1 h2 h3
      simp only [streamWalk]
      rw [if_pos (by omega)]
      by_cases he : cursor + 1 = (target : Int)
      · rw [if_pos he, he]
      · rw [if_neg he]
        exact ih (cursor + 1) (by omega) h2 (by omega)

/-- C8: indexing an archive whose image-bearing entry names are
"page2.jpg", "page10.jpg", "page1.jpg" produces the ordinal order
page1.jpg, page2.jpg, page10.jpg: the natural-sort comparator compares
maximal digit runs as integer values rather than character by
character. -/
theorem c8_natural_order :
    (index_archive ["page2.jpg", "page10.jpg", "page1.jpg"]).map PageEntry.name
      = ["page1.jpg", "page2.jpg", "page10.jpg"] := by decide

/-- C5 counterexample: with the sentinel cursor -1 (no entries consumed
yet) and target stream position 0, the code rewinds even though the
cursor has not passed the target (`cursor > target` is false), refuting
the claim that a rewind happens exactly when `cursor > target` and that
the sentinel triggers one only when the target precedes the cursor. -/
theorem c5_cex_sentinel_rewind :
    needs_rewind (-1) 0 = true ∧ ¬ ((-1 : Int) > ((0 : Nat) : Int)) := by decide

/-- C5 amended: `read_page` closes, reopens and resets the stream exactly
when the session cursor has already passed the target stream position
(`cursor > target`) or when the cursor holds the sentinel -1 (so the
first read after opening always performs a redundant, harmless rewind of
the freshly opened stream). -/
theorem c5_rewind_condition_amended (cursor : Int) (target : Nat) :
    needs_rewind cursor target = true ↔
      ((target : Int) < cursor ∨ cursor = -1) := by
  simp [needs_rewind]

/-- C1: for every archive whose payloads are well-formed and contain at
least 6 pages, calling `read_page 5` and then `read_page 1` on the same
session returns, for ordinal 1, exactly the same bytes as calling
`read_page 1` on a freshly opened session (cursor -1) of the same
archive.  `entries` is the stream-position sequence of the sorted index,
whose positions are pairwise distinct and in range, as `open` guarantees. -/
theorem c1_rewind_idempotent (payloads : List (List Nat)) (entries : List Nat)
    (hlen : 6 ≤ entries.length)
    (hbound : ∀ t ∈ entries, t < payloads.length)
    (hnodup : entries.Nodup) :
    (read_page payloads entries (read_page payloads entries (-1) 5).2 1).1
      = (read_page payloads entries (-1) 1).1 := by
  have h5lt : 5 < entries.length := by omega
  have h1lt : 1 < entries.length := by omega
  have hg5 : entries.get? 5 = some (entries.get ⟨5, h5lt⟩) := List.get?_eq_get h5lt
  have hg1 : entries.get? 1 = some (entries.get ⟨1, h1lt⟩) := List.get?_eq_get h1lt
  set t5 := entries.get ⟨5, h5lt⟩ with ht5
  set t1 := entries.get ⟨1, h1lt⟩ with ht1
  have hb5 : (t5 : Int) < payloads.length := by
    exact_mod_cast hbound t5 (List.get_mem entries _ _)
  have hb1 : (t1 : Int) < payloads.length := by
    exact_mod_cast hbound t1 (List.get_mem entries _ _)
  have hne : t5 ≠ t1 := by
    intro h
    have h51 : (⟨5, h5lt⟩ : Fin entries.length) = ⟨1, h1lt⟩ :=
      (List.Nodup.get_inj_iff hnodup).mp h
    simp at h51
  have e5 : read_page payloads entries (-1) 5 = (payloads.getD t5 [], (t5 : Int)) := by
    simp only [read_page, hg5, ite_self]
    exact streamWalk_hit payloads t5 payloads.length (-1) (by omega) hb5 (by omega)
  have efresh : read_page payloads entries (-1) 1 = (payloads.getD t1 [], (t1 : Int)) := by
    simp only [read_page, hg1, ite_self]
    exact streamWalk_hit payloads t1 payloads.length (-1) (by omega) hb1 (by omega)
  rw [e5, efresh]
  simp only [read_page, hg1]
  by_cases hgt : (t1 : Int) < (t5 : Int)
  · have hr : needs_rewind (t5 : Int) t1 = true := by
      simp only [needs_rewind, Bool.or_eq_true, decide_eq_true_eq]
      omega
    rw [if_pos hr]
    rw [streamWalk_hit payloads t1 payloads.length (-1) (by omega) hb1 (by omega)]
  · have hlt : (t5 : Int) < (t1 : Int) := by
      have hcast : (t5 : Int) ≠ (t1 : Int) := by exact_mod_cast hne
      omega
    have hr : ¬ (needs_rewind (t5 : Int) t1 = true) := by
      simp only [needs_rewind, Bool.or_eq_true, decide_eq_true_eq]
      omega
    rw [if_neg hr]
    rw [streamWalk_hit payloads t1 payloads.length (t5 : Int) (by omega) hb1 (by omega)]

/-- Witness for C1 at a concrete archive with 7 well-formed pages. -/
theorem c1_rewind_idempotent_witness :
    6 ≤ ([0, 1, 2, 3, 4, 5, 6] : List Nat).length ∧
    (∀ t ∈ ([0, 1, 2, 3, 4, 5, 6] : List Nat),
        t < ([[10], [11], [12], [13], [14], [15], [16]] : List (List Nat)).length) ∧
    ([0, 1, 2, 3, 4, 5, 6] : List Nat).Nodup ∧
    (read_page [[10], [11], [12], [13], [14], [15], [16]] [0, 1, 2, 3, 4, 5, 6]
        (read_page [[10], [11], [12], [13], [14], [15], [16]] [0, 1, 2, 3, 4, 5, 6] (-1) 5).2 1).1
      = (read_page [[10], [11], [12], [13], [14], [15], [16]] [0, 1, 2, 3, 4, 5, 6] (-1) 1).1 :=
  ⟨by decide, by decide, by decide,
   c1_rewind_idempotent [[10], [11], [12], [13], [14], [15], [16]] [0, 1, 2, 3, 4, 5, 6]
     (by decide) (by decide) (by decide)⟩

/-!
## Bounded page cache (tcreader.cpp lines 466-480)

`ComicReader::load_page` returns the cached buffer on a hit; on a miss it
invokes `archive.read_page` (abstracted here as a `loader` function) and,
when the result is non-empty, first erases every cached index at absolute
distance greater than 2 from the requested index and then inserts the
result.  The `std::map<int, std::vector<unsigned char>>` is modelled as an
association list with distinct keys (insertions only happen on a miss);
`std::abs(idx - page_idx) > 2` becomes `(idx - page_idx).natAbs > 2`, and
erase-then-insert becomes filter-then-cons.
-/

/-- `page_cache.count(page_idx)` / `page_cache[page_idx]` lookup. -/
def cacheLookup : List (Int × List Nat) → Int → Option (List Nat)
  | [], _ => none
  | (k, v) :: rest, p => if k = p then some v else cacheLookup rest p

/-- Shallow embedding of `ComicReader::load_page` (lines 466-480),
returning the bytes and the updated cache. -/
def load_page (loader : Int → List Nat) (cache : List (Int × List Nat))
    (page_idx : Int) : List Nat × List (Int × List Nat) :=
  match cacheLookup cache page_idx with
  | some v => (v, cache)
  | none =>
      let data := loader page_idx
      if data = [] then (data, cache)
      else (data, (page_idx, data) ::
        cache.filter (fun q => decide ((q.1 - page_idx).natAbs ≤ 2)))

/-- The cache produced by a sequence of `load_page` requests starting
from the empty cache. -/
def cacheAfter (loader : Int → List Nat) (reqs : List Int) :
    List (Int × List Nat) :=
  reqs.foldl (fun c i => (load_page loader c i).2) []

/-- C9: for every ordinal already present in the page cache, `load_page`
returns the cached bytes and leaves the cache map entirely unchanged (no
insertion, no eviction), so entries whose distance from the requested
ordinal exceeds the radius 2 can remain cached after a hit. -/
theorem c9_cache_hit_frame (loader : Int → List Nat)
    (cache : List (Int × List Nat)) (page_idx : Int) (v : List Nat)
    (h : cacheLookup cache page_idx = some v) :
    load_page loader cache page_idx = (v, cache) := by
  rw [load_page, h]

/-- Witness for C9: a hit on ordinal 0 leaves the entry at ordinal 10
(distance 10 > 2) cached. -/
theorem c9_cache_hit_frame_witness :
    cacheLookup [((0 : Int), [1]), (10, [2])] 0 = some [1] ∧
    load_page (fun _ => [9]) [((0 : Int), [1]), (10, [2])] 0
      = ([1], [((0 : Int), [1]), (10, [2])]) :=
  ⟨by decide, c9_cache_hit_frame (fun _ => [9]) [((0 : Int), [1]), (10, [2])] 0 [1] (by decide)⟩

/-- C3: starting from the empty cache with eviction radius 2, requesting
ordinals 0, 1, 2, 3, 4 in sequence (each load returning non-empty bytes)
keeps the cache at no more than 5 entries and, after each request, at no
ordinal whose absolute distance from the most recent request exceeds 2;
and on any miss with non-empty loader result the entry is inserted and
exactly the cached ordinals at distance greater than 2 are evicted. -/
theorem c3_cache_eviction_invariant (loader : Int → List Nat)
    (h : ∀ i : Int, loader i ≠ []) :
    ((cacheAfter loader [0]).length ≤ 5 ∧
      ∀ p ∈ cacheAfter loader [0], (p.1 - 0).natAbs ≤ 2) ∧
    ((cacheAfter loader [0, 1]).length ≤ 5 ∧
      ∀ p ∈ cacheAfter loader [0, 1], (p.1 - 1).natAbs ≤ 2) ∧
    ((cacheAfter loader [0, 1, 2]).length ≤ 5 ∧
      ∀ p ∈ cacheAfter loader [0, 1, 2], (p.1 - 2).natAbs ≤ 2) ∧
    ((cacheAfter loader [0, 1, 2, 3]).length ≤ 5 ∧
      ∀ p ∈ cacheAfter loader [0, 1, 2, 3], (p.1 - 3).natAbs ≤ 2) ∧
    ((cacheAfter loader [0, 1, 2, 3, 4]).length ≤ 5 ∧
      ∀ p ∈ cacheAfter loader [0, 1, 2, 3, 4], (p.1 - 4).natAbs ≤ 2) ∧
    (∀ (c : List (Int × List Nat)) (q : Int), cacheLookup c q = none →
      cacheLookup (load_page loader c q).2 q = some (loader q) ∧
      ∀ k : Int, (∃ v, (k, v) ∈ (load_page loader c q).2) ↔
        (k = q ∨ ((∃ v, (k, v) ∈ c) ∧ (k - q).natAbs ≤ 2))) := by
  have hl0 := h 0
  have hl1 := h 1
  have hl2 := h 2
  have hl3 := h 3
  have hl4 := h 4
  have e1 : cacheAfter loader [0] = [(0, loader 0)] := by
    simp [cacheAfter, load_page, cacheLookup, hl0]
  have e2 : cacheAfter loader [0, 1] = [(1, loader 1), (0, loader 0)] := by
    simp [cacheAfter, load_page, cacheLookup, hl0, hl1, List.filter]
  have e3 : cacheAfter loader [0, 1, 2]
      = [(2, loader 2), (1, loader 1), (0, loader 0)] := by
    simp [cacheAfter, load_page, cacheLookup, hl0, hl1, hl2, List.filter]
  have e4 : cacheAfter loader [0, 1, 2, 3]
      = [(3, loader 3), (2, loader 2), (1, loader 1)] := by
    simp [cacheAfter, load_page, cacheLookup, hl0, hl1, hl2, hl3, List.filter]
  have e5 : cacheAfter loader [0, 1, 2, 3, 4]
      = [(4, loader 4), (3, loader 3), (2, loader 2)] := by
    simp [cacheAfter, load_page, cacheLookup, hl0, hl1, hl2, hl3, hl4, List.filter]
  refine ⟨⟨?_, ?_⟩, ⟨?_, ?_⟩, ⟨?_, ?_⟩, ⟨?_, ?_⟩, ⟨?_, ?_⟩, ?_⟩
  · rw [e1]; simp
  · rw [e1]; rintro p hp; simp at hp; subst hp; simp
  · rw [e2]; simp
  · rw [e2]; rintro p hp
    rcases List.mem_cons.mp hp with rfl | hp
    · simp
    · simp at hp; subst hp; simp
  · rw [e3]; simp
  · rw [e3]; rintro p hp
    rcases List.mem_cons.mp hp with rfl | hp
    · simp
    rcases List.mem_cons.mp hp with rfl | hp
    · simp
    · simp at hp; subst hp; simp
  · rw [e4]; simp
  · rw [e4]; rintro p hp
    rcases List.mem_cons.mp hp with rfl | hp
    · simp
    rcases List.mem_cons.mp hp with rfl | hp
    · simp
    · simp at hp; subst hp; simp
  · rw [e5]; simp
  · rw [e5]; rintro p hp
    rcases List.mem_cons.mp hp with rfl | hp
    · simp
    rcases List.mem_cons.mp hp with rfl | hp
    · simp
    · simp at hp; subst hp; simp
  · intro c q hmiss
    constructor
    · simp only [load_page, hmiss]
      rw [if_neg (h q)]
      simp [cacheLookup]
    · intro k
      simp only [load_page, hmiss]
      rw [if_neg (h q)]
      simp only [List.mem_cons, List.mem_filter, decide_eq_true_eq, Prod.mk.injEq]
      constructor
      · rintro ⟨v, hv | ⟨hv, hd⟩⟩
        · exact Or.inl hv.1
        · exact Or.inr ⟨⟨v, hv⟩, hd⟩
      · rintro (rfl | ⟨⟨v, hv⟩, hd⟩)
        · exact ⟨loader k, Or.inl ⟨rfl, rfl⟩⟩
        · exact ⟨v, Or.inr ⟨hv, hd⟩⟩

/-- Witness for C3 with the constant non-empty loader. -/
theorem c3_cache_eviction_invariant_witness :
    (∀ i : Int, (fun _ : Int => [7]) i ≠ []) ∧
    (((cacheAfter (fun _ : Int => [7]) [0]).length ≤ 5 ∧
       ∀ p ∈ cacheAfter (fun _ : Int => [7]) [0], (p.1 - 0).natAbs ≤ 2) ∧
     ((cacheAfter (fun _ : Int => [7]) [0, 1]).length ≤ 5 ∧
       ∀ p ∈ cacheAfter (fun _ : Int => [7]) [0, 1], (p.1 - 1).natAbs ≤ 2) ∧
     ((cacheAfter (fun _ : Int => [7]) [0, 1, 2]).length ≤ 5 ∧
       ∀ p ∈ cacheAfter (fun _ : Int => [7]) [0, 1, 2], (p.1 - 2).natAbs ≤ 2) ∧
     ((cacheAfter (fun _ : Int => [7]) [0, 1, 2, 3]).length ≤ 5 ∧
       ∀ p ∈ cacheAfter (fun _ : Int => [7]) [0, 1, 2, 3], (p.1 - 3).natAbs ≤ 2) ∧
     ((cacheAfter (fun _ : Int => [7]) [0, 1, 2, 3, 4]).length ≤ 5 ∧
       ∀ p ∈ cacheAfter (fun _ : Int => [7]) [0, 1, 2, 3, 4], (p.1 - 4).natAbs ≤ 2) ∧
     (∀ (c : List (Int × List Nat)) (q : Int), cacheLookup c q = none →
       cacheLookup (load_page (fun _ : Int => [7]) c q).2 q = some ((fun _ : Int => [7]) q) ∧
       ∀ k : Int, (∃ v, (k, v) ∈ (load_page (fun _ : Int => [7]) c q).2) ↔
         (k = q ∨ ((∃ v, (k, v) ∈ c) ∧ (k - q).natAbs ≤ 2)))) :=
  ⟨fun i => by simp, c3_cache_eviction_invariant (fun _ : Int => [7]) (fun i => by simp)⟩

/-!
## Kitty renderer: pan clamping and cropping (tcreader.cpp lines 556-594)

`ComicReader::render_kitty` scales the decoded image to `new_w` by
`new_h` pixels, clamps the pan offsets into `[-max_pan, 0]` with
`max_pan = max(0, scaled_dimension - target_dimension)` per axis, and
crops the rectangle with origin `(|pan_x|, |pan_y|)` and size
`min(new_w - |pan_x|, target_w)` by `min(new_h - |pan_y|, target_h)`.
The crop loop reads `resized[((crop_y + y) * new_w + (crop_x + x)) * 3]`
(plus 1 and 2) for `0 ≤ y < crop_h`, `0 ≤ x < crop_w` from a buffer of
`new_w * new_h * 3` bytes.  The scaled dimensions are kept abstract
(arbitrary non-negative integers): they cover every source image size and
every zoom factor, since the in-bounds property depends only on the
integer dimensions the float scaling produces.
-/

/-- `std::clamp(v, lo, hi)`. -/
def clampI (v lo hi : Int) : Int :=
  if v < lo then lo else if hi < v then hi else v

structure CropRect where
  x : Int
  y : Int
  w : Int
  h : Int

/-- Pan clamping and crop computation of `render_kitty` (lines 567-583);
`if p < 0 then -p else p` is `std::abs`. -/
def compute_crop (new_w new_h target_w target_h pan_x pan_y : Int) : CropRect :=
  let max_pan_x := max 0 (new_w - target_w)
  let max_pan_y := max 0 (new_h - target_h)
  let px := clampI pan_x (-max_pan_x) 0
  let py := clampI pan_y (-max_pan_y) 0
  let crop_x := if px < 0 then -px else px
  let crop_y := if py < 0 then -py else py
  { x := crop_x, y := crop_y,
    w := min (new_w - crop_x) target_w,
    h := min (new_h - crop_y) target_h }

/-- C2: for every scaled image size (hence every source image and every
zoom factor in [0.5, 3.0]) and every requested pan offset pair, the crop
rectangle produced after clamping lies entirely within the scaled image
bounds on both axes, and every pixel index read by the cropping loop is
within the `new_w * new_h * 3`-byte scaled buffer. -/
theorem c2_crop_in_bounds (new_w new_h target_w target_h pan_x pan_y : Int)
    (hw : 0 ≤ new_w) (hh : 0 ≤ new_h) (htw : 0 ≤ target_w) (hth : 0 ≤ target_h) :
    0 ≤ (compute_crop new_w new_h target_w target_h pan_x pan_y).x ∧
    (compute_crop new_w new_h target_w target_h pan_x pan_y).x
      + (compute_crop new_w new_h target_w target_h pan_x pan_y).w ≤ new_w ∧
    0 ≤ (compute_crop new_w new_h target_w target_h pan_x pan_y).y ∧
    (compute_crop new_w new_h target_w target_h pan_x pan_y).y
      + (compute_crop new_w new_h target_w target_h pan_x pan_y).h ≤ new_h ∧
    (∀ x y : Int, 0 ≤ x →
      x < (compute_crop new_w new_h target_w target_h pan_x pan_y).w → 0 ≤ y →
      y < (compute_crop new_w new_h target_w target_h pan_x pan_y).h →
      0 ≤ (((compute_crop new_w new_h target_w target_h pan_x pan_y).y + y) * new_w
            + ((compute_crop new_w new_h target_w target_h pan_x pan_y).x + x)) * 3 ∧
      (((compute_crop new_w new_h target_w target_h pan_x pan_y).y + y) * new_w
            + ((compute_crop new_w new_h target_w target_h pan_x pan_y).x + x)) * 3 + 2
        < new_w * new_h * 3) := by
  have hb : 0 ≤ (compute_crop new_w new_h target_w target_h pan_x pan_y).x ∧
      (compute_crop new_w new_h target_w target_h pan_x pan_y).x
        + (compute_crop new_w new_h target_w target_h pan_x pan_y).w ≤ new_w ∧
      0 ≤ (compute_crop new_w new_h target_w target_h pan_x pan_y).y ∧
      (compute_crop new_w new_h target_w target_h pan_x pan_y).y
        + (compute_crop new_w new_h target_w target_h pan_x pan_y).h ≤ new_h := by
    simp only [compute_crop, clampI]
    split_ifs <;> omega
  obtain ⟨hcx, hcw, hcy, hch⟩ := hb
  refine ⟨hcx, hcw, hcy, hch, ?_⟩
  intro x y hx0 hxw hy0 hyh
  set cx := (compute_crop new_w new_h target_w target_h pan_x pan_y).x
  set cy := (compute_crop new_w new_h target_w target_h pan_x pan_y).y
  have hcol : 0 ≤ cx + x ∧ cx + x < new_w := by omega
  have hrow : 0 ≤ cy + y ∧ cy + y < new_h := by omega
  constructor
  · have h1 : 0 ≤ (cy + y) * new_w := mul_nonneg hrow.1 hw
    linarith [hcol.1]
  · have h1 : (cy + y) * new_w ≤ (new_h - 1) * new_w :=
      mul_le_mul_of_nonneg_right (by omega) hw
    have h2 : (new_h - 1) * new_w = new_h * new_w - new_w := by ring
    have h3 : cx + x ≤ new_w - 1 := by omega
    nlinarith [h1, h2, h3]

/-- Witness for C2 at concrete dimensions and an out-of-range pan request. -/
theorem c2_crop_in_bounds_witness :
    (0 ≤ (800 : Int)) ∧
    (0 ≤ (compute_crop 800 600 400 300 (-10000) 7).x ∧
     (compute_crop 800 600 400 300 (-10000) 7).x
       + (compute_crop 800 600 400 300 (-10000) 7).w ≤ 800 ∧
     0 ≤ (compute_crop 800 600 400 300 (-10000) 7).y ∧
     (compute_crop 800 600 400 300 (-10000) 7).y
       + (compute_crop 800 600 400 300 (-10000) 7).h ≤ 600 ∧
     (∀ x y : Int, 0 ≤ x → x < (compute_crop 800 600 400 300 (-10000) 7).w → 0 ≤ y →
       y < (compute_crop 800 600 400 300 (-10000) 7).h →
       0 ≤ (((compute_crop 800 600 400 300 (-10000) 7).y + y) * 800
             + ((compute_crop 800 600 400 300 (-10000) 7).x + x)) * 3 ∧
       (((compute_crop 800 600 400 300 (-10000) 7).y + y) * 800
             + ((compute_crop 800 600 400 300 (-10000) 7).x + x)) * 3 + 2
         < 800 * 600 * 3)) :=
  ⟨by decide,
   c2_crop_in_bounds 800 600 400 300 (-10000) 7
     (by decide) (by decide) (by decide) (by decide)⟩

/-!
## Kitty renderer: chunked transmission (tcreader.cpp lines 596-639)

The base64 payload is sent in chunks of `min(4096, remaining)` encoded
characters; the continuation flag `m` is 0 exactly on the chunk that
reaches the end of the payload (`offset + this_chunk >= b64.size()`) and
1 otherwise.  The first chunk's header carries the crop pixel dimensions
`s = crop_w`, `v = crop_h` and the occupied cell counts
`c = (crop_w + char_w - 1) / char_w`, `r = (crop_h + char_h - 1) / char_h`
where `char_w`/`char_h` are the terminal's per-cell pixel sizes.
-/

/-- The chunking loop of `render_kitty` (lines 618-639), returning the
continuation flag and payload of each emitted chunk in order.  Each
iteration takes `this_chunk = min(4096, remaining)` characters and the
continuation flag `m` is 0 exactly when `offset + this_chunk` reaches the
payload size, i.e. when the remaining length is at most `this_chunk`. -/
def emit_chunks : List Char → List (Nat × List Char)
  | [] => []
  | c :: rest =>
      ((if (c :: rest).length ≤ min 4096 (c :: rest).length then 0 else 1),
        (c :: rest).take (min 4096 (c :: rest).length))
        :: emit_chunks ((c :: rest).drop (min 4096 (c :: rest).length))
termination_by s => s.length
decreasing_by
  simp only [List.length_drop, List.length_cons]
  omega

/-- `cols_needed` / `rows_needed` (lines 603-604): occupied cell count of
a crop dimension. -/
def cells_needed (pix cell : Nat) : Nat := (pix + cell - 1) / cell

structure KittyHeader where
  s : Nat
  v : Nat
  c : Nat
  r : Nat
deriving DecidableEq

/-- Header of the first emitted chunk (line 627). -/
def first_chunk_header (crop_w crop_h char_w char_h : Nat) : KittyHeader :=
  { s := crop_w, v := crop_h,
    c := cells_needed crop_w char_w, r := cells_needed crop_h char_h }

theorem ceil_div_aux (cell q r : Nat) (h : 0 < cell) (hr : r < cell) :
    (cell * q + r + cell - 1) / cell = q + if r = 0 then 0 else 1 := by
  by_cases h0 : r = 0
  · subst h0
    simp only [ite_true, Nat.add_zero]
    have h1 : cell * q + cell - 1 = cell * q + (cell - 1) := by omega
    rw [h1, Nat.mul_add_div h, Nat.div_eq_of_lt (show cell - 1 < cell by omega)]
    omega
  · simp only [h0, ite_false]
    have h1 : cell * q + r + cell - 1 = cell * (q + 1) + (r - 1) := by
      have hx : cell * (q + 1) = cell * q + cell := by ring
      omega
    rw [h1, Nat.mul_add_div h, Nat.div_eq_of_lt (show r - 1 < cell by omega)]

/-- `(pix + cell - 1) / cell` is division by `cell` rounded up. -/
theorem cells_needed_eq (pix cell : Nat) (h : 0 < cell) :
    cells_needed pix cell = pix / cell + if pix % cell = 0 then 0 else 1 := by
  have hd := Nat.div_add_mod pix cell
  have hm : pix % cell < cell := Nat.mod_lt pix h
  have haux := ceil_div_aux cell (pix / cell) (pix % cell) h hm
  rw [hd] at haux
  exact haux

theorem emit_chunks_small (c : Char) (rest : List Char)
    (h : (c :: rest).length ≤ 4096) :
    emit_chunks (c :: rest) = [(0, c :: rest)] := by
  rw [emit_chunks]
  have hmin : min 4096 (c :: rest).length = (c :: rest).length := by omega
  rw [hmin, if_pos (le_refl _), List.take_length, List.drop_length, emit_chunks]

theorem emit_chunks_big (c : Char) (rest : List Char)
    (h : ¬ (c :: rest).length ≤ 4096) :
    emit_chunks (c :: rest)
      = (1, (c :: rest).take 4096) :: emit_chunks ((c :: rest).drop 4096) := by
  rw [emit_chunks]
  have hmin : min 4096 (c :: rest).length = 4096 := by omega
  rw [hmin, if_neg (by omega)]

theorem emit_chunks_spec (s : List Char) :
    s ≠ [] →
    ((emit_chunks s).length
        = s.length / 4096 + (if s.length % 4096 = 0 then 0 else 1) ∧
     (emit_chunks s).map Prod.fst
        = List.replicate ((emit_chunks s).length - 1) 1 ++ [0] ∧
     (∀ ch ∈ emit_chunks s, ch.2.length ≤ 4096) ∧
     ((emit_chunks s).map Prod.snd).flatten = s) := by
  induction s using emit_chunks.induct with
  | case1 => intro hs; simp at hs
  | case2 c rest ih =>
      intro _
      by_cases hlen : (c :: rest).length ≤ 4096
      · rw [emit_chunks_small c rest hlen]
        have hpos : 0 < (c :: rest).length := by simp
        refine ⟨?_, by simp, ?_, by simp⟩
        · simp only [List.length_singleton]
          split_ifs <;> omega
        · intro ch hch
          simp only [List.mem_singleton] at hch
          subst hch
          exact hlen
      · have hmin : min 4096 (c :: rest).length = 4096 := by omega
        rw [hmin] at ih
        have hdrop : ((c :: rest).drop 4096).length = (c :: rest).length - 4096 :=
          List.length_drop 4096 (c :: rest)
        have hne : (c :: rest).drop 4096 ≠ [] := by
          intro hd
          rw [hd] at hdrop
          simp only [List.length_nil] at hdrop
          omega
        rw [emit_chunks_big c rest hlen]
        obtain ⟨ihlen, ihflags, ihsz, ihjoin⟩ := ih hne
        have hn1 : 1 ≤ (emit_chunks ((c :: rest).drop 4096)).length := by
          rw [ihlen, hdrop]
          split_ifs <;> omega
        refine ⟨?_, ?_, ?_, ?_⟩
        · simp only [List.length_cons, ihlen, hdrop]
          split_ifs <;> omega
        · simp only [List.map_cons, ihflags, List.length_cons]
          have hrep : (emit_chunks ((c :: rest).drop 4096)).length + 1 - 1
              = ((emit_chunks ((c :: rest).drop 4096)).length - 1) + 1 := by omega
          rw [hrep, List.replicate_succ]
          simp
        · intro ch hch
          rcases List.mem_cons.mp hch with rfl | hch
          · simp [List.length_take]
          · exact ihsz ch hch
        · simp only [List.map_cons, List.flatten_cons, ihjoin]
          exact List.take_append_drop 4096 (c :: rest)

/-- C4: for every non-empty base64 payload of length L the transmitter
emits exactly ceil(L / 4096) chunks of at most 4096 encoded characters
each, whose concatenation is the payload, with continuation flag 1 on
every chunk except the last, whose flag is 0; and the first chunk's
header carries the crop pixel dimensions and the occupied cell counts
obtained by dividing the crop dimensions by the per-cell pixel sizes,
rounding up. -/
theorem c4_chunk_framing (b64 : List Char) (hb : b64 ≠ [])
    (crop_w crop_h char_w char_h : Nat) (hcw : 0 < char_w) (hch : 0 < char_h) :
    (emit_chunks b64).length
        = b64.length / 4096 + (if b64.length % 4096 = 0 then 0 else 1) ∧
    (emit_chunks b64).map Prod.fst
        = List.replicate ((emit_chunks b64).length - 1) 1 ++ [0] ∧
    (∀ ch ∈ emit_chunks b64, ch.2.length ≤ 4096) ∧
    ((emit_chunks b64).map Prod.snd).flatten = b64 ∧
    first_chunk_header crop_w crop_h char_w char_h
        = { s := crop_w, v := crop_h,
            c := crop_w / char_w + (if crop_w % char_w = 0 then 0 else 1),
            r := crop_h / char_h + (if crop_h % char_h = 0 then 0 else 1) } := by
  obtain ⟨h1, h2, h3, h4⟩ := emit_chunks_spec b64 hb
  refine ⟨h1, h2, h3, h4, ?_⟩
  simp only [first_chunk_header, cells_needed_eq crop_w char_w hcw,
    cells_needed_eq crop_h char_h hch]

/-- Witness for C4 at a 5000-character payload (two chunks) and an
8 by 16 pixel cell. -/
theorem c4_chunk_framing_witness :
    (List.replicate 5000 'A' ≠ []) ∧
    ((emit_chunks (List.replicate 5000 'A')).length
        = (List.replicate 5000 'A').length / 4096
          + (if (List.replicate 5000 'A').length % 4096 = 0 then 0 else 1) ∧
     (emit_chunks (List.replicate 5000 'A')).map Prod.fst
        = List.replicate ((emit_chunks (List.replicate 5000 'A')).length - 1) 1 ++ [0] ∧
     (∀ ch ∈ emit_chunks (List.replicate 5000 'A'), ch.2.length ≤ 4096) ∧
     ((emit_chunks (List.replicate 5000 'A')).map Prod.snd).flatten
        = List.replicate 5000 'A' ∧
     first_chunk_header 100 150 8 16
        = { s := 100, v := 150,
            c := 100 / 8 + (if 100 % 8 = 0 then 0 else 1),
            r := 150 / 16 + (if 150 % 16 = 0 then 0 else 1) }) :=
  ⟨by apply List.ne_nil_of_length_pos; rw [List.length_replicate]; omega,
   c4_chunk_framing (List.replicate 5000 'A')
     (by apply List.ne_nil_of_length_pos; rw [List.length_replicate]; omega)
     100 150 8 16 (by decide) (by decide)⟩

/-!
## Navigation state machine (tcreader.cpp lines 785-1015)

The event loop is a two-state machine over `viewing_comic`.  In the
Viewing state the next/prev-page intents use
`step = config.double_page ? 2 : 1` (lines 888, 947-954): `next` advances
only when `current_page + step < page_count` and otherwise leaves the
ordinal unchanged, `prev` retreats to `max(0, current_page - step)` when
`current_page > 0`.  In the Browsing state, selecting an archive
(lines 858-879) either opens it — resetting zoom to 1.0, pan to (0, 0),
restoring the saved ordinal when a progress entry exists (zeroed only
when it is `>= page_count`) and entering the Viewing state — or leaves
the whole state unchanged on failure.  The float `zoom_level` is
modelled in `ℚ`; the only value involved here, 1.0f, is exact.
-/

/-- `int step = config.double_page ? 2 : 1;` (line 888). -/
def nav_step (double_page : Bool) : Int := if double_page then 2 else 1

/-- Next-page intent handler (lines 947-950). -/
def next_page (double_page : Bool) (page_count current : Int) : Int :=
  if current + nav_step double_page < page_count then current + nav_step double_page
  else current

/-- Prev-page intent handler (lines 951-954). -/
def prev_page (double_page : Bool) (current : Int) : Int :=
  if current > 0 then max 0 (current - nav_step double_page) else current

/-- C6 counterexample: with the double-page step 2 active, on a 10-page
archive at ordinal 8 the next-page intent leaves the ordinal at 8 instead
of clamping the advanced ordinal into [0, page_count-1] (which would give
min(8 + 2, 10 - 1) = 9), refuting the claim that the resulting ordinal is
always the advanced ordinal clamped into that interval. -/
theorem c6_cex_next_not_clamped :
    next_page true 10 8 = 8 ∧
      ¬ (next_page true 10 8 = min (8 + nav_step true) (10 - 1)) := by decide

/-- C6 amended: in the Viewing state the step is 2 exactly when the
double-page flag is set (zoom eligibility is not consulted), else 1; a
prev-page intent retreats the ordinal by the step clamped below at 0; a
next-page intent advances by the step only when the advanced ordinal is
still below page_count and otherwise leaves the ordinal unchanged (it is
not clamped up to page_count-1); in all cases an ordinal in
[0, page_count-1] stays in [0, page_count-1]. -/
theorem c6_navigation_amended (double_page : Bool) (page_count current : Int)
    (h0 : 0 ≤ current) (h1 : current < page_count) :
    nav_step double_page = (if double_page then 2 else 1) ∧
    prev_page double_page current = max 0 (current - nav_step double_page) ∧
    (current + nav_step double_page < page_count →
      next_page double_page page_count current = current + nav_step double_page) ∧
    (page_count ≤ current + nav_step double_page →
      next_page double_page page_count current = current) ∧
    (0 ≤ next_page double_page page_count current ∧
      next_page double_page page_count current < page_count) ∧
    (0 ≤ prev_page double_page current ∧
      prev_page double_page current < page_count) := by
  have hs : nav_step double_page = 1 ∨ nav_step double_page = 2 := by
    unfold nav_step
    split_ifs <;> simp
  refine ⟨rfl, ?_, ?_, ?_, ?_, ?_⟩ <;>
    (simp only [next_page, prev_page]; split_ifs <;> omega)

/-- Witness for C6 amended at the counterexample's configuration. -/
theorem c6_navigation_amended_witness :
    (0 ≤ (8 : Int)) ∧
    (nav_step true = (if true then 2 else 1) ∧
     prev_page true 8 = max 0 (8 - nav_step true) ∧
     ((8 : Int) + nav_step true < 10 → next_page true 10 8 = 8 + nav_step true) ∧
     ((10 : Int) ≤ 8 + nav_step true → next_page true 10 8 = 8) ∧
     (0 ≤ next_page true 10 8 ∧ next_page true 10 8 < 10) ∧
     (0 ≤ prev_page true 8 ∧ prev_page true 8 < 10)) :=
  ⟨by decide, c6_navigation_amended true 10 8 (by decide) (by decide)⟩

/-- View-related state of `ComicReader` touched by the select-archive
transition. -/
structure ViewState where
  viewing_comic : Bool
  zoom_level : ℚ
  pan_x : Int
  pan_y : Int
  current_page : Int
deriving DecidableEq

/-- The Browsing-state select-archive transition (lines 858-879):
`open_ok` is the result of `archive.open`, `page_count` the opened
archive's page count, `saved` the `ProgressRecord` entry for this archive
if one exists.  On success the view state is reset, the saved ordinal
restored (zeroed only when `saved >= page_count`) and the state becomes
Viewing; on failure the state is unchanged. -/
def select_archive (st : ViewState) (open_ok : Bool) (page_count : Int)
    (saved : Option Int) : ViewState :=
  if open_ok then
    { viewing_comic := true
      zoom_level := 1
      pan_x := 0
      pan_y := 0
      current_page :=
        match saved with
        | some p => if p ≥ page_count then 0 else p
        | none => 0 }
  else st

/-- C7 counterexample: a saved ordinal of -3 is out of range for a 5-page
archive, so the claim requires the restored ordinal to be 0; the code
only checks the upper bound and restores -3 unchanged. -/
theorem c7_cex_negative_saved :
    (select_archive ⟨false, 1, 0, 0, 0⟩ true 5 (some (-3))).current_page = -3 ∧
      ¬ ((select_archive ⟨false, 1, 0, 0, 0⟩ true 5 (some (-3))).current_page = 0) := by
  decide

/-- C7 amended: when a select-archive intent is handled in the Browsing
state and the archive opens successfully, the view state is reset to
defaults (zoom 1.0, pan (0, 0)), the current page ordinal is restored
from the saved ProgressRecord entry whenever one exists and is below
page_count (only the upper bound is checked: negative saved ordinals are
restored as-is) and 0 is used when the entry is missing or >= page_count,
and the state transitions to Viewing; if the open fails, the whole state
(hence Browsing) is unchanged. -/
theorem c7_select_archive_amended (st : ViewState) (page_count : Int)
    (saved : Option Int) :
    (select_archive st true page_count saved).viewing_comic = true ∧
    (select_archive st true page_count saved).zoom_level = 1 ∧
    (select_archive st true page_count saved).pan_x = 0 ∧
    (select_archive st true page_count saved).pan_y = 0 ∧
    (select_archive st true page_count saved).current_page
      = (match saved with
         | some p => if p ≥ page_count then 0 else p
         | none => 0) ∧
    select_archive st false page_count saved = st := by
  refine ⟨rfl, rfl, rfl, rfl, rfl, rfl⟩

end TCReader